import Mathlib

set_option maxHeartbeats 1000000

/-!
Shallow embedding of the scraper core of this repository
(`hianimez_scraper.py` together with the configuration in `config.py`).

Modelling conventions:
* Python text is modelled as `List Char`; Python regex/string semantics are
  modelled at the ASCII level (all inputs the claims concern are ASCII):
  the class `\s` is ASCII whitespace, `\d` and `str.isdigit` are the ASCII
  digits, and case-insensitive matching lowers ASCII letters only.
* HTTP traffic is modelled by explicit attempt outcomes: a `session.get`
  either raises an exception or returns a response with a status code and a
  body.  Fallible Python code returns `Except`/`Option` values.
* `urllib.parse.urljoin`/`urlsplit`/`urlunsplit` (CPython, RFC-3986 style
  resolution as implemented since Python 3.5) are modelled executably below,
  since `_abs` and `_base_of` delegate to them.
-/

namespace Hianime

/-- ASCII lowering of a character, as a code point (the fragment of Python's
case-insensitive matching relevant to the ASCII patterns of the scraper). -/
def lowerN (c : Char) : Nat :=
  if 65 ≤ c.toNat ∧ c.toNat ≤ 90 then c.toNat + 32 else c.toNat

/-- ASCII whitespace: the characters of the regex class `\s` (ASCII part). -/
def isSpacePy (c : Char) : Bool :=
  c = ' ' || c = '\t' || c = '\n' || c = '\r' || c = '\x0b' || c = '\x0c'

/-- Model of `config.py`: `RETRIES = int(os.getenv("HTTP_RETRIES", "2"))`, with the
default environment (no `HTTP_RETRIES` variable set). -/
def RETRIES : Nat := 2

/-- One call of `session.get(url, timeout=...)`: it either raises an exception
or returns a response with a status code (`r.status_code`) and a body
(`r.text`). -/
inductive Attempt where
  | exc (e : String)
  | resp (status : Nat) (body : String)
deriving DecidableEq

/-- The errors `_get_with_retries` can store in its `last` variable: an
exception raised by `session.get`, or the `HTTPError` raised by
`r.raise_for_status()` for a 4xx status (a 5xx status is skipped by the
`continue` before `raise_for_status` runs). -/
inductive FetchError where
  | getExc (e : String)
  | httpStatus (status : Nat)
deriving DecidableEq

/-- Observable behaviour of one run of `_get_with_retries`: the returned text
or the raised `last` error (`.error none` is the degenerate `raise last` with
`last = None`, reachable only when no exception was ever caught), the number
of `session.get` calls made, and the trace of back-off sleeps in tenths of a
second (`time.sleep(0.6)` is `6`, `time.sleep(0.4)` is `4`). -/
structure FetchTrace where
  result : Except (Option FetchError) String
  attempts : Nat
  sleepsTenths : List Nat

/-- The loop body of `_get_with_retries`, indexed by the number of attempts
already made (`i`) and the remaining loop budget (`fuel`).  Mirrors:
`r = session.get(url)`; `if r.status_code >= 500: sleep(0.6); continue`;
`r.raise_for_status()` (raises for 4xx); `return r.text`; on exception
`last = e; sleep(0.4)`; after the loop `raise last`. -/
def getWithRetriesGo (session : Nat → Attempt) : Nat → Nat → Option FetchError → FetchTrace
  | i, 0, last => ⟨.error last, i, []⟩
  | i, fuel + 1, last =>
    match session i with
    | .resp s body =>
      if 500 ≤ s then
        let t := getWithRetriesGo session (i + 1) fuel last
        ⟨t.result, t.attempts, 6 :: t.sleepsTenths⟩
      else if 400 ≤ s then
        let t := getWithRetriesGo session (i + 1) fuel (some (.httpStatus s))
        ⟨t.result, t.attempts, 4 :: t.sleepsTenths⟩
      else ⟨.ok body, i + 1, []⟩
    | .exc e =>
      let t := getWithRetriesGo session (i + 1) fuel (some (.getExc e))
      ⟨t.result, t.attempts, 4 :: t.sleepsTenths⟩

/-- Model of `_get_with_retries(session, url)`: `for _ in range(RETRIES + 1): ...`,
with the successive outcomes of `session.get` given by `session`. -/
def get_with_retries (retries : Nat) (session : Nat → Attempt) : FetchTrace :=
  getWithRetriesGo session 0 (retries + 1) none

/-- The error (if any) that an attempt outcome makes the loop store in
`last`: exceptions are stored; a 4xx response stores the `raise_for_status`
error; a 5xx response stores nothing (`continue` skips the `except` block). -/
def errOf : Attempt → Option FetchError
  | .exc e => some (.getExc e)
  | .resp s _ => if 500 ≤ s then none else if 400 ≤ s then some (.httpStatus s) else none

/-- The back-off (in tenths of a second) an attempt outcome causes:
`6` (0.6 s) for a 5xx response, `4` (0.4 s) for any other failure,
nothing for a successful attempt. -/
def backoffOf : Attempt → Option Nat
  | .exc _ => some 4
  | .resp s _ => if 500 ≤ s then some 6 else if 400 ≤ s then some 4 else none

/-- Folding step computing the final value of the `last` variable. -/
def updErr (acc : Option FetchError) (a : Attempt) : Option FetchError :=
  match errOf a with
  | some e => some e
  | none => acc

/-- An attempt outcome that does not make `_get_with_retries` return:
an exception, or a response with status ≥ 400. -/
def isFailB : Attempt → Bool
  | .exc _ => true
  | .resp s _ => decide (400 ≤ s)

/-- Session returning 503 on the first attempt and 200 with body `"body200"`
afterwards (the fetch-retry scenario of the spec). -/
def sess503 : Nat → Attempt := fun i => if i = 0 then .resp 503 "oops" else .resp 200 "body200"

/-- Session failing on every attempt: 503 first, then exceptions. -/
def sessAllFail : Nat → Attempt := fun i => if i = 0 then .resp 503 "oops" else .exc "boom"

/-- Match a fixed (lowercase) literal case-insensitively at the head of the
input; on success return the rest of the input.  This models the literal
fragments of the `re.I` patterns in `extract_episode_stream_and_subtitle`
and `get_episodes_list`. -/
def skipLitCI : List Char → List Char → Option (List Char)
  | [], cs => some cs
  | _ :: _, [] => none
  | p :: ps, c :: cs => if lowerN c = lowerN p then skipLitCI ps cs else none

/-- The fragment `\s*`: greedy whitespace skip (in every pattern of the source the next
token is a non-space literal, so the greedy skip is the full semantics). -/
def skipWs (cs : List Char) : List Char := cs.dropWhile isSpacePy

/-- Match one literal character. -/
def expectChar (c : Char) : List Char → Option (List Char)
  | d :: cs => if d = c then some cs else none
  | [] => none

/-- Ordered alternation of literal keys (e.g. `(?:file|url)"`): Python's
regex engine tries the alternatives left to right. -/
def skipKeyAlt (keys : List (List Char)) (r : List Char) : Option (List Char) :=
  match keys with
  | [] => none
  | k :: ks =>
    match skipLitCI k r with
    | some r' => some r'
    | none => skipKeyAlt ks r

/-- The capture `"([^"]+SUFFIX)"` of the source patterns: an opening quote,
then the maximal run of non-quote characters, which must be terminated by a
quote and satisfy `ok`.  (Python's backtracking is forced here: the group
consists of non-quote characters and must be followed immediately by `"`,
so it extends exactly to the next quote.) -/
def matchQuotedValue (ok : List Char → Bool) (r : List Char) : Option (List Char) :=
  (expectChar '"' r).bind fun r1 =>
    match r1.drop (r1.takeWhile (fun c => c != '"')).length with
    | [] => none
    | _ :: _ =>
      if ok (r1.takeWhile (fun c => c != '"')) then some (r1.takeWhile (fun c => c != '"'))
      else none

/-- Case-insensitive suffix test used to model `...\.m3u8` / `...\.(?:vtt|srt)`. -/
def endsCI (sfx run : List Char) : Bool := (sfx.map lowerN).isSuffixOf (run.map lowerN)

/-- The group of the stream pattern: `[^"]+\.m3u8` (at least one character,
then a literal `.m3u8`, case-insensitively). -/
def streamOk (run : List Char) : Bool := decide (5 < run.length) && endsCI ".m3u8".toList run

/-- The group of the subtitle patterns: `[^"]+\.(?:vtt|srt)`. -/
def subOk (run : List Char) : Bool :=
  decide (4 < run.length) && (endsCI ".vtt".toList run || endsCI ".srt".toList run)

/-- Attempt to match, at the head of the input, the stream pattern
`"label"\s*:\s*"HD-2"\s*,\s*"(?:file|url)"\s*:\s*"([^"]+\.m3u8)"` (re.I),
returning the captured group. -/
def matchStreamAt (cs : List Char) : Option (List Char) :=
  (skipLitCI "\"label\"".toList cs).bind fun r1 =>
  (expectChar ':' (skipWs r1)).bind fun r2 =>
  (skipLitCI "\"hd-2\"".toList (skipWs r2)).bind fun r3 =>
  (expectChar ',' (skipWs r3)).bind fun r4 =>
  (expectChar '"' (skipWs r4)).bind fun r5 =>
  (skipKeyAlt ["file\"".toList, "url\"".toList] r5).bind fun r6 =>
  (expectChar ':' (skipWs r6)).bind fun r7 =>
  matchQuotedValue streamOk (skipWs r7)

/-- Attempt to match, at the head of the input, the code-based subtitle
pattern `"srclang"\s*:\s*"en"\s*,\s*"(?:file|url|src)"\s*:\s*"([^"]+\.(?:vtt|srt))"`. -/
def matchSub1At (cs : List Char) : Option (List Char) :=
  (skipLitCI "\"srclang\"".toList cs).bind fun r1 =>
  (expectChar ':' (skipWs r1)).bind fun r2 =>
  (skipLitCI "\"en\"".toList (skipWs r2)).bind fun r3 =>
  (expectChar ',' (skipWs r3)).bind fun r4 =>
  (expectChar '"' (skipWs r4)).bind fun r5 =>
  (skipKeyAlt ["file\"".toList, "url\"".toList, "src\"".toList] r5).bind fun r6 =>
  (expectChar ':' (skipWs r6)).bind fun r7 =>
  matchQuotedValue subOk (skipWs r7)

/-- The fragment `"English[^"]*"`: after the literal `"English`, skip to the closing
quote (the run is made of non-quote characters and forced to end there). -/
def skipToQuote (r : List Char) : Option (List Char) :=
  match r.dropWhile (fun c => c != '"') with
  | [] => none
  | _ :: t => some t

/-- Attempt to match, at the head of the input, the name-based subtitle
pattern `"lang"\s*:\s*"English[^"]*"\s*,\s*"(?:file|url|src)"\s*:\s*"([^"]+\.(?:vtt|srt))"`. -/
def matchSub2At (cs : List Char) : Option (List Char) :=
  (skipLitCI "\"lang\"".toList cs).bind fun r1 =>
  (expectChar ':' (skipWs r1)).bind fun r2 =>
  (skipLitCI "\"english".toList (skipWs r2)).bind fun r3 =>
  (skipToQuote r3).bind fun r4 =>
  (expectChar ',' (skipWs r4)).bind fun r5 =>
  (expectChar '"' (skipWs r5)).bind fun r6 =>
  (skipKeyAlt ["file\"".toList, "url\"".toList, "src\"".toList] r6).bind fun r7 =>
  (expectChar ':' (skipWs r7)).bind fun r8 =>
  matchQuotedValue subOk (skipWs r8)

/-- Model of `re.search`: try the pattern at every position, left to right, and
return the first match. -/
def scanFirst (m : List Char → Option (List Char)) : List Char → Option (List Char)
  | [] => m []
  | c :: rest =>
    match m (c :: rest) with
    | some u => some u
    | none => scanFirst m rest

/-- Application of `re.search` to the HD-2 stream pattern over the page text
(`m_hls` in the source). -/
def streamSearch (cs : List Char) : Option (List Char) := scanFirst matchStreamAt cs

/-- Model of `m_sub = re.search(code_pattern, html) or re.search(name_pattern, html)`:
the code-based (srclang) pattern is tried first, then the name-based one. -/
def subSearch (cs : List Char) : Option (List Char) :=
  match scanFirst matchSub1At cs with
  | some u => some u
  | none => scanFirst matchSub2At cs

/-- Model of `extract_episode_stream_and_subtitle`, applied to an episode page text
that was already fetched successfully (the fetch itself is
`_get_with_retries`, modelled separately): the pair
`(hls_url, sub_url)` with `None` modelled as `none`. -/
def extract_episode_stream_and_subtitle (cs : List Char) : Option (List Char) × Option (List Char) :=
  (streamSearch cs, subSearch cs)

/-- Attempt to match `Episode\s*([0-9]+)` (re.I) at the head of the anchor
text, returning the captured digit run. -/
def matchEpTextAt (cs : List Char) : Option (List Char) :=
  (skipLitCI "episode".toList cs).bind fun r1 =>
    let d := (skipWs r1).takeWhile Char.isDigit
    if d.isEmpty then none else some d

/-- Attempt to match `episode[-_/ ]?(\d+)` (re.I) at the head of the href:
the optional separator is tried greedily; if the next character is a
separator the digits must follow it (the alternative without the separator
would have to start with that non-digit character and fails). -/
def matchEpHrefAt (cs : List Char) : Option (List Char) :=
  (skipLitCI "episode".toList cs).bind fun r1 =>
    match r1 with
    | c :: r2 =>
      if c = '-' ∨ c = '_' ∨ c = '/' ∨ c = ' ' then
        (let d := r2.takeWhile Char.isDigit
         if d.isEmpty then none else some d)
      else
        (let d := r1.takeWhile Char.isDigit
         if d.isEmpty then none else some d)
    | [] => none

/-- Episode-number derivation of `get_episodes_list`: the `Episode <digits>`
match in the visible text, else a digit run adjacent to `episode` in the
href, else the `"?"` sentinel. -/
def epNumOf (text href : List Char) : List Char :=
  match scanFirst matchEpTextAt text with
  | some d => d
  | none =>
    match scanFirst matchEpHrefAt href with
    | some d => d
    | none => ['?']

/-- Python `str.strip()` (ASCII whitespace). -/
def pyStrip (s : List Char) : List Char :=
  ((s.dropWhile isSpacePy).reverse.dropWhile isSpacePy).reverse

/-- Python `str.rstrip("/")`. -/
def rstripSlash (s : List Char) : List Char := (s.reverse.dropWhile (fun c => c == '/')).reverse

/-- The five components of `urllib.parse.urlsplit`. -/
structure SplitUrl where
  scheme : List Char
  netloc : List Char
  path : List Char
  query : List Char
  fragment : List Char
deriving DecidableEq

/-- The characters CPython allows in a URL scheme. -/
def isSchemeChar (c : Char) : Bool :=
  c.isAlpha || c.isDigit || c == '+' || c == '-' || c == '.'

/-- ASCII `str.lower` on one character. -/
def asciiLower (c : Char) : Char :=
  if c.isUpper then Char.ofNat (c.toNat + 32) else c

/-- Split a list at the first occurrence of `c` (the occurrence removed);
if `c` does not occur, the second component is empty. -/
def splitFirst (c : Char) (l : List Char) : List Char × List Char :=
  let pre := l.takeWhile (fun d => d != c)
  if pre.length = l.length then (l, []) else (pre, l.drop (pre.length + 1))

/-- Model of CPython `urllib.parse.urlsplit(url, scheme=defaultScheme)`:
scheme (lowercased) if the text before the first `:` is a well-formed scheme,
then `//netloc` up to the first of `/?#`, then fragment after the first `#`,
then query after the first `?` of what precedes the fragment. -/
def urlsplit (url : List Char) (defaultScheme : List Char) : SplitUrl :=
  let i := url.findIdx (fun c => c == ':')
  let pre := url.take i
  let hasScheme := decide (0 < i) && decide (i < url.length) &&
    (match pre with | c :: _ => c.isAlpha | [] => false) && pre.all isSchemeChar
  let scheme := if hasScheme then pre.map asciiLower else defaultScheme
  let rest := if hasScheme then url.drop (i + 1) else url
  let netloc :=
    if rest.take 2 = ['/', '/'] then
      (rest.drop 2).takeWhile (fun c => c != '/' && c != '?' && c != '#')
    else []
  let rest2 := if rest.take 2 = ['/', '/'] then (rest.drop 2).drop netloc.length else rest
  let fr := splitFirst '#' rest2
  let pq := splitFirst '?' fr.1
  ⟨scheme, netloc, pq.1, pq.2, fr.2⟩

/-- Model of CPython `urllib.parse.urlunsplit`. -/
def urlunsplit (u : SplitUrl) : List Char :=
  let url0 :=
    if u.netloc ≠ [] ∨ u.path.take 2 = ['/', '/'] then
      (let p := if u.path ≠ [] ∧ u.path.take 1 ≠ ['/'] then '/' :: u.path else u.path
       '/' :: '/' :: (u.netloc ++ p))
    else u.path
  let url1 := if u.scheme ≠ [] then u.scheme ++ ':' :: url0 else url0
  let url2 := if u.query ≠ [] then url1 ++ '?' :: u.query else url1
  if u.fragment ≠ [] then url2 ++ '#' :: u.fragment else url2

/-- CPython `urllib.parse.uses_relative`. -/
def usesRelative : List (List Char) :=
  ["".toList, "ftp".toList, "http".toList, "gopher".toList, "nntp".toList, "imap".toList,
   "wais".toList, "file".toList, "https".toList, "shttp".toList, "mms".toList,
   "prospero".toList, "rtsp".toList, "rtspu".toList, "sftp".toList, "svn".toList,
   "svn+ssh".toList, "ws".toList, "wss".toList]

/-- CPython `urllib.parse.uses_netloc`. -/
def usesNetloc : List (List Char) :=
  ["".toList, "ftp".toList, "http".toList, "gopher".toList, "nntp".toList, "telnet".toList,
   "imap".toList, "wais".toList, "file".toList, "mms".toList, "https".toList, "shttp".toList,
   "snews".toList, "prospero".toList, "rtsp".toList, "rtspu".toList, "rsync".toList,
   "svn".toList, "svn+ssh".toList, "sftp".toList, "nfs".toList, "git".toList,
   "git+ssh".toList, "ws".toList, "wss".toList]

/-- The step `segments[1:-1] = filter(None, segments[1:-1])`: drop empty segments,
keeping the first and last element (helper for all but the first element). -/
def filterMidGo : List (List Char) → List (List Char)
  | [] => []
  | [y] => [y]
  | y :: ys => if y = [] then filterMidGo ys else y :: filterMidGo ys

/-- The step `segments[1:-1] = filter(None, segments[1:-1])` applied to the whole list. -/
def filterMiddle : List (List Char) → List (List Char)
  | [] => []
  | x :: xs => x :: filterMidGo xs

/-- Model of `bpath.split('/')`. -/
def splitSlash (l : List Char) : List (List Char) := l.splitOn '/'

/-- Model of `'/'.join(...)`. -/
def joinSlash (ls : List (List Char)) : List Char := List.intercalate ['/'] ls

/-- The `..`/`.` segment resolution loop of CPython `urljoin`
(`resolved_path.pop()` on an empty list is a no-op). -/
def resolveSegs (segs : List (List Char)) : List (List Char) :=
  segs.foldl
    (fun acc seg =>
      if seg = ['.', '.'] then acc.dropLast
      else if seg = ['.'] then acc
      else acc ++ [seg])
    []

/-- Model of CPython `urllib.parse.urljoin` (the RFC 3986-style resolution
shipped since Python 3.5, including the removal of empty interior segments). -/
def urljoin (base url : List Char) : List Char :=
  if base = [] then url
  else if url = [] then base
  else
    let b := urlsplit base []
    let u := urlsplit url b.scheme
    if u.scheme ≠ b.scheme ∨ u.scheme ∉ usesRelative then url
    else if u.scheme ∈ usesNetloc ∧ u.netloc ≠ [] then
      urlunsplit ⟨u.scheme, u.netloc, u.path, u.query, u.fragment⟩
    else
      let netloc := if u.scheme ∈ usesNetloc then b.netloc else u.netloc
      if u.path = [] ∧ u.query = [] then
        urlunsplit ⟨u.scheme, netloc, b.path, b.query,
          if u.fragment = [] then b.fragment else u.fragment⟩
      else if u.path = [] then
        urlunsplit ⟨u.scheme, netloc, b.path, u.query, u.fragment⟩
      else
        let baseParts0 := splitSlash b.path
        let baseParts := if baseParts0.getLastD [] ≠ [] then baseParts0.dropLast else baseParts0
        let segments :=
          if u.path.take 1 = ['/'] then splitSlash u.path
          else filterMiddle (baseParts ++ splitSlash u.path)
        let resolved0 := resolveSegs segments
        let resolved :=
          if segments.getLastD [] = ['.'] ∨ segments.getLastD [] = ['.', '.'] then
            resolved0 ++ [[]]
          else resolved0
        let joined := joinSlash resolved
        urlunsplit ⟨u.scheme, netloc, (if joined = [] then ['/'] else joined), u.query,
          u.fragment⟩

/-- Model of `_abs(base, maybe_rel) = urljoin(base + "/", maybe_rel)`. -/
def abs (base maybe_rel : List Char) : List Char := urljoin (base ++ ['/']) maybe_rel

/-- Whether probing a candidate base succeeds with a status below 500
(`probe b = none` models a raised exception). -/
def goodB (probe : List Char → Option Nat) (b : List Char) : Bool :=
  match probe b with
  | some s => decide (s < 500)
  | none => false

/-- The probing loop of `_pick_live_base`: first candidate whose GET
response status is below 500, with trailing slashes stripped. -/
def pickFirstGood (probe : List Char → Option Nat) : List (List Char) → Option (List Char)
  | [] => none
  | b :: rest =>
    match probe b with
    | some s => if s < 500 then some (rstripSlash b) else pickFirstGood probe rest
    | none => pickFirstGood probe rest

/-- Model of `_pick_live_base()` over an explicit pool and probe function; the final
`HIANIME_DOMAIN_POOL[0].rstrip("/")` is `none` on an empty pool (an
`IndexError` in Python). -/
def pick_live_base (probe : List Char → Option Nat) (pool : List (List Char)) :
    Option (List Char) :=
  match pickFirstGood probe pool with
  | some r => some r
  | none => pool.head?.map rstripSlash

/-- Model of `config.py`: `HIANIME_DOMAIN_POOL`. -/
def HIANIME_DOMAIN_POOL : List (List Char) :=
  ["https://hianimez.is".toList, "https://hianimez.to".toList, "https://hianime.is".toList,
   "https://hianime.bz".toList, "https://hianimez.bz".toList]

/-- Model of `_base_of(url)`: `scheme://netloc` when the parse has both a scheme and
a netloc, otherwise `_pick_live_base()`. -/
def base_of (probe : List Char → Option Nat) (pool : List (List Char)) (url : List Char) :
    Option (List Char) :=
  if (urlsplit url []).scheme ≠ [] ∧ (urlsplit url []).netloc ≠ [] then
    some ((urlsplit url []).scheme ++ ':' :: '/' :: '/' :: (urlsplit url []).netloc)
  else pick_live_base probe pool

/-- Decimal value of an ASCII digit run (`int(...)`). -/
def natOfDigits (l : List Char) : Nat := l.foldl (fun n c => n * 10 + (c.toNat - 48)) 0

/-- Python `str.isdigit` (ASCII): non-empty and all digits. -/
def isdigitL (s : List Char) : Bool := !s.isEmpty && s.all Char.isDigit

/-- The sort key of `get_episodes_list`:
`(int(x[0]) if x[0].isdigit() else 10**9, x[1])`. -/
def keyOf (p : List Char × List Char) : Nat × List Char :=
  (if isdigitL p.1 then natOfDigits p.1 else 10 ^ 9, p.2)

/-- Python string `<=` (code-point lexicographic). -/
def strLeB : List Char → List Char → Bool
  | [], _ => true
  | _ :: _, [] => false
  | a :: as, b :: bs =>
    if a.toNat < b.toNat then true
    else if b.toNat < a.toNat then false
    else strLeB as bs

/-- Python tuple `<=` on `(Nat, str)` keys. -/
def keyLeB (x y : Nat × List Char) : Bool :=
  if x.1 < y.1 then true else if y.1 < x.1 then false else strLeB x.2 y.2

/-- Sort-key comparison between two episode entries. -/
def epLeB (a b : List Char × List Char) : Bool := keyLeB (keyOf a) (keyOf b)

/-- The ordering used by `sorted(..., key=...)`, as a proposition. -/
abbrev epLe (a b : List Char × List Char) : Prop := epLeB a b = true

/-- The dict-based deduplication `seen[(num, url)] = True` (insertion order
keeps the first occurrence of each pair). -/
def pyDedup (l : List (List Char × List Char)) : List (List Char × List Char) :=
  l.foldl (fun acc x => if x ∈ acc then acc else acc ++ [x]) []

/-- Model of `sorted(seen.keys(), key=...)`: a stable sort by the episode key of the
deduplicated entries (Python's sort is stable; so is insertion sort by a
total preorder). -/
def postprocess (l : List (List Char × List Char)) : List (List Char × List Char) :=
  List.insertionSort epLe (pyDedup l)

/-- The per-anchor processing of `get_episodes_list`: skip anchors whose
stripped href is empty, resolve the href against the base, and derive the
episode number from the text, else the href, else `"?"`. -/
def episode_pairs (base : List Char) (anchors : List (List Char × List Char)) :
    List (List Char × List Char) :=
  anchors.filterMap fun a =>
    let href := pyStrip a.2
    if href = [] then none else some (epNumOf a.1 href, abs base href)

/-- Model of `get_episodes_list`, built from the candidate anchors extracted from
the rendered HTML (the BeautifulSoup/Playwright selector stages are external
libraries; an anchor is its visible text `a.get_text(" ", strip=True)`
paired with its `href` attribute). -/
def get_episodes_list (base : List Char) (anchors : List (List Char × List Char)) :
    List (List Char × List Char) :=
  postprocess (episode_pairs base anchors)

/-- A poster anchor as seen by `search_anime`: optional `title` attribute,
visible text (`get_text(strip=True)`) and `href` attribute. -/
structure Anchor where
  titleAttr : Option (List Char)
  text : List Char
  href : List Char

/-- Model of `a.get("title") or a.get_text(strip=True) or "Unknown"` (Python `or`
falls through on `None` and on the empty string). -/
def titleOf (a : Anchor) : List Char :=
  match a.titleAttr with
  | some t => if t = [] then (if a.text = [] then "Unknown".toList else a.text) else t
  | none => if a.text = [] then "Unknown".toList else a.text

/-- Model of `search_anime`, built from the poster anchors of the rendered search
page: skip anchors with an empty (stripped) href; each result is
`(title, anime_url, anime_url)`. -/
def search_anime (base : List Char) (anchors : List Anchor) :
    List (List Char × List Char × List Char) :=
  anchors.filterMap fun a =>
    let rel := pyStrip a.href
    if rel = [] then none
    else some (titleOf a, abs base rel, abs base rel)

/-- Page text with an HD-1 entry first and the claimed HD-2 entry second. -/
def pageBothLabels : List Char :=
  "\x7b\"label\":\"HD-1\",\"file\":\"https://cdn/o.m3u8\"\x7d,\x7b\"label\":\"HD-2\",\"file\":\"https://cdn/x.m3u8\"\x7d".toList

/-- Page text with two HD-2 entries (the first must win). -/
def pageTwoHd2 : List Char :=
  "\x7b\"label\":\"HD-2\",\"file\":\"https://c/x.m3u8\"\x7d,\x7b\"label\":\"HD-2\",\"file\":\"https://c/y.m3u8\"\x7d".toList

/-- Page text whose only stream entry has a label other than HD-2. -/
def pageOtherLabel : List Char :=
  "\x7b\"label\":\"HD-1\",\"file\":\"https://cdn/o.m3u8\"\x7d".toList

/-- Page text with the claimed English (srclang) subtitle entry and no HD-2. -/
def pageSubCode : List Char :=
  "\x7b\"srclang\":\"en\",\"file\":\"https://cdn/en.vtt\"\x7d".toList

/-- Page text with only non-English subtitle entries. -/
def pageSubNone : List Char :=
  "\x7b\"srclang\":\"fr\",\"file\":\"https://c/fr.vtt\"\x7d,\x7b\"lang\":\"French\",\"url\":\"https://c/fr.srt\"\x7d".toList

/-- Page text where a name-based (English) entry precedes a code-based
(srclang en) entry in the text. -/
def pageSubBoth : List Char :=
  "\x7b\"lang\":\"English\",\"url\":\"https://a/n.srt\"\x7d,\x7b\"srclang\":\"en\",\"file\":\"https://b/c.vtt\"\x7d".toList

-- ===== theorems =====

lemma getWithRetriesGo_main (session : Nat → Attempt) :
    ∀ fuel i last, ∃ k, k ≤ fuel ∧ (getWithRetriesGo session i fuel last).attempts = i + k ∧
      (getWithRetriesGo session i fuel last).sleepsTenths =
        ((List.range' i k).map session).filterMap backoffOf := by
  intro fuel
  induction fuel with
  | zero => intro i last; exact ⟨0, le_rfl, rfl, rfl⟩
  | succ n ih =>
    intro i last
    simp only [getWithRetriesGo]
    cases hs : session i with
    | exc e =>
      obtain ⟨k, hk, ha, hb⟩ := ih (i + 1) (some (.getExc e))
      refine ⟨k + 1, by omega, by simp [ha]; omega, ?_⟩
      simp only [List.range'_succ, List.map_cons, List.filterMap_cons, hs, backoffOf]
      simpa using hb
    | resp s body =>
      by_cases h5 : 500 ≤ s
      · simp only [if_pos h5]
        obtain ⟨k, hk, ha, hb⟩ := ih (i + 1) last
        refine ⟨k + 1, by omega, by simp [ha]; omega, ?_⟩
        simp only [List.range'_succ, List.map_cons, List.filterMap_cons, hs, backoffOf,
          if_pos h5]
        simpa using hb
      · simp only [if_neg h5]
        by_cases h4 : 400 ≤ s
        · simp only [if_pos h4]
          obtain ⟨k, hk, ha, hb⟩ := ih (i + 1) (some (.httpStatus s))
          refine ⟨k + 1, by omega, by simp [ha]; omega, ?_⟩
          simp only [List.range'_succ, List.map_cons, List.filterMap_cons, hs, backoffOf,
            if_neg h5, if_pos h4]
          simpa using hb
        · simp only [if_neg h4]
          refine ⟨1, by omega, rfl, ?_⟩
          simp [List.range'_succ, hs, backoffOf, if_neg h5, if_neg h4]

lemma getWithRetriesGo_success (session : Nat → Attempt) :
    ∀ fuel k i last s b, k < fuel →
      (∀ j, i ≤ j → j < i + k → isFailB (session j) = true) →
      session (i + k) = .resp s b → s < 400 →
      (getWithRetriesGo session i fuel last).result = .ok b := by
  intro fuel
  induction fuel with
  | zero => intro k i last s b hk; omega
  | succ n ih =>
    intro k i last s b hk hfail hsess hs
    simp only [getWithRetriesGo]
    cases k with
    | zero =>
      simp only [Nat.add_zero] at hsess
      rw [hsess]
      simp only [if_neg (by omega : ¬ 500 ≤ s), if_neg (by omega : ¬ 400 ≤ s)]
    | succ m =>
      have hfi : isFailB (session i) = true := hfail i le_rfl (by omega)
      cases hi : session i with
      | exc e =>
        exact ih m (i + 1) (some (.getExc e)) s b (by omega)
          (fun j hj1 hj2 => hfail j (by omega) (by omega))
          (by rw [← hsess]; congr 1; omega) hs
      | resp s' body' =>
        rw [hi] at hfi
        simp only [isFailB, decide_eq_true_eq] at hfi
        by_cases h5 : 500 ≤ s'
        · simp only [if_pos h5]
          exact ih m (i + 1) last s b (by omega)
            (fun j hj1 hj2 => hfail j (by omega) (by omega))
            (by rw [← hsess]; congr 1; omega) hs
        · simp only [if_neg h5, if_pos hfi]
          exact ih m (i + 1) (some (.httpStatus s')) s b (by omega)
            (fun j hj1 hj2 => hfail j (by omega) (by omega))
            (by rw [← hsess]; congr 1; omega) hs

lemma getWithRetriesGo_allFail (session : Nat → Attempt) :
    ∀ fuel i last, (∀ j, i ≤ j → j < i + fuel → isFailB (session j) = true) →
      (getWithRetriesGo session i fuel last).result =
        .error (((List.range' i fuel).map session).foldl updErr last) := by
  intro fuel
  induction fuel with
  | zero => intro i last _; rfl
  | succ n ih =>
    intro i last hfail
    have hfi : isFailB (session i) = true := hfail i le_rfl (by omega)
    simp only [getWithRetriesGo, List.range'_succ, List.map_cons, List.foldl_cons]
    cases hi : session i with
    | exc e =>
      have h2 : updErr last (Attempt.exc e) = some (.getExc e) := rfl
      rw [h2]
      exact ih (i + 1) (some (.getExc e)) (fun j hj1 hj2 => hfail j (by omega) (by omega))
    | resp s body =>
      rw [hi] at hfi
      simp only [isFailB, decide_eq_true_eq] at hfi
      by_cases h5 : 500 ≤ s
      · have : updErr last (.resp s body) = last := by
          simp [updErr, errOf, if_pos h5]
        rw [this]
        simp only [if_pos h5]
        exact ih (i + 1) last (fun j hj1 hj2 => hfail j (by omega) (by omega))
      · have : updErr last (.resp s body) = some (.httpStatus s) := by
          simp [updErr, errOf, if_neg h5, if_pos hfi]
        rw [this]
        simp only [if_neg h5, if_pos hfi]
        exact ih (i + 1) (some (.httpStatus s)) (fun j hj1 hj2 => hfail j (by omega) (by omega))

/-- C1: `_get_with_retries` makes at most `RETRIES + 1` request attempts; the
trace of back-off sleeps is exactly one entry per failing attempt — `0.6 s`
for an attempt whose response status is ≥ 500 and `0.4 s` for any other
failing attempt (so each such attempt triggers its back-off and the loop then
retries while budget remains); a session that fails on the attempts before
attempt `k ≤ retries` and returns a success status with body `b` at attempt
`k` makes the call return `b` — in particular 503 then 200 within the default
budget returns the 200 body; and when every attempt fails, the call raises
the final value of the `last` variable (the last encountered error). -/
theorem c1_get_with_retries_retry_policy :
    (∀ retries session, (get_with_retries retries session).attempts ≤ retries + 1)
    ∧ (∀ retries session,
        (get_with_retries retries session).sleepsTenths =
          ((List.range (get_with_retries retries session).attempts).map session).filterMap
            backoffOf)
    ∧ (∀ retries session k s b, k ≤ retries →
        (∀ j, j < k → isFailB (session j) = true) →
        session k = .resp s b → s < 400 →
        (get_with_retries retries session).result = .ok b)
    ∧ (∀ retries session, (∀ j, j < retries + 1 → isFailB (session j) = true) →
        (get_with_retries retries session).result =
          .error (((List.range (retries + 1)).map session).foldl updErr none))
    ∧ (get_with_retries RETRIES sess503).result = .ok "body200" := by
  refine ⟨?_, ?_, ?_, ?_, ?_⟩
  · intro retries session
    obtain ⟨k, hk, ha, _⟩ := getWithRetriesGo_main session (retries + 1) 0 none
    simp only [get_with_retries, ha]
    omega
  · intro retries session
    obtain ⟨k, hk, ha, hb⟩ := getWithRetriesGo_main session (retries + 1) 0 none
    simp only [get_with_retries] at *
    rw [ha, hb, List.range_eq_range']
    simp
  · intro retries session k s b hk hfail hsess hs
    exact getWithRetriesGo_success session (retries + 1) k 0 none s b (by omega)
      (fun j hj1 hj2 => hfail j (by omega)) (by simpa using hsess) hs
  · intro retries session hfail
    rw [List.range_eq_range']
    exact getWithRetriesGo_allFail session (retries + 1) 0 none
      (fun j hj1 hj2 => hfail j (by omega))
  · rfl

/-- Witness for C1 at concrete inputs: the 503-then-200 session succeeds with
the 200 body (discharging the failure/success hypotheses at `k = 1`), and the
everywhere-failing session raises the last encountered error (`"boom"`). -/
theorem c1_get_with_retries_retry_policy_witness :
    (get_with_retries 2 sess503).result = .ok "body200"
    ∧ (get_with_retries 2 sessAllFail).result =
        .error (some (.getExc "boom")) := by
  constructor
  · exact c1_get_with_retries_retry_policy.2.2.1 2 sess503 1 200 "body200"
      (by decide) (by decide) (by decide) (by decide)
  · have h := c1_get_with_retries_retry_policy.2.2.2.1 2 sessAllFail (by decide)
    rw [h]
    rfl

lemma strLeB_cons (a b : Char) (as bs : List Char) :
    strLeB (a :: as) (b :: bs) = true ↔
      a.toNat < b.toNat ∨ (a.toNat = b.toNat ∧ strLeB as bs = true) := by
  by_cases h1 : a.toNat < b.toNat
  · simp [strLeB, h1]
  · by_cases h2 : b.toNat < a.toNat
    · have h3 : ¬ a.toNat = b.toNat := by omega
      simp [strLeB, h1, h2, h3]
    · have h3 : a.toNat = b.toNat := by omega
      simp [strLeB, h1, h2, h3]

lemma strLeB_total : ∀ u v : List Char, strLeB u v = true ∨ strLeB v u = true := by
  intro u
  induction u with
  | nil => intro v; left; rfl
  | cons a as ih =>
    intro v
    cases v with
    | nil => right; rfl
    | cons b bs =>
      rw [strLeB_cons, strLeB_cons]
      rcases Nat.lt_trichotomy a.toNat b.toNat with h | h | h
      · exact Or.inl (Or.inl h)
      · rcases ih bs with hs | hs
        · exact Or.inl (Or.inr ⟨h, hs⟩)
        · exact Or.inr (Or.inr ⟨h.symm, hs⟩)
      · exact Or.inr (Or.inl h)

lemma strLeB_trans : ∀ u v w : List Char,
    strLeB u v = true → strLeB v w = true → strLeB u w = true := by
  intro u
  induction u with
  | nil => intro v w _ _; rfl
  | cons a as ih =>
    intro v w huv hvw
    cases v with
    | nil => simp [strLeB] at huv
    | cons b bs =>
      cases w with
      | nil => simp [strLeB] at hvw
      | cons c cs =>
        rw [strLeB_cons] at huv hvw ⊢
        rcases huv with h | ⟨h, hr⟩
        · rcases hvw with h' | ⟨h', hr'⟩
          · exact Or.inl (by omega)
          · exact Or.inl (by omega)
        · rcases hvw with h' | ⟨h', hr'⟩
          · exact Or.inl (by omega)
          · exact Or.inr ⟨by omega, ih bs cs hr hr'⟩

lemma keyLeB_iff (x y : Nat × List Char) :
    keyLeB x y = true ↔ x.1 < y.1 ∨ (x.1 = y.1 ∧ strLeB x.2 y.2 = true) := by
  by_cases h1 : x.1 < y.1
  · simp [keyLeB, h1]
  · by_cases h2 : y.1 < x.1
    · have h3 : ¬ x.1 = y.1 := by omega
      simp [keyLeB, h1, h2, h3]
    · have h3 : x.1 = y.1 := by omega
      simp [keyLeB, h1, h2, h3]

lemma keyLeB_total (x y : Nat × List Char) : keyLeB x y = true ∨ keyLeB y x = true := by
  rw [keyLeB_iff, keyLeB_iff]
  rcases Nat.lt_trichotomy x.1 y.1 with h | h | h
  · exact Or.inl (Or.inl h)
  · rcases strLeB_total x.2 y.2 with hs | hs
    · exact Or.inl (Or.inr ⟨h, hs⟩)
    · exact Or.inr (Or.inr ⟨h.symm, hs⟩)
  · exact Or.inr (Or.inl h)

lemma keyLeB_trans (x y z : Nat × List Char) :
    keyLeB x y = true → keyLeB y z = true → keyLeB x z = true := by
  rw [keyLeB_iff, keyLeB_iff, keyLeB_iff]
  rintro (h | ⟨h, hs⟩) (h' | ⟨h', hs'⟩)
  · exact Or.inl (by omega)
  · exact Or.inl (by omega)
  · exact Or.inl (by omega)
  · exact Or.inr ⟨by omega, strLeB_trans _ _ _ hs hs'⟩

lemma foldlDedup_mem (l : List (List Char × List Char)) :
    ∀ acc x, x ∈ l.foldl (fun acc x => if x ∈ acc then acc else acc ++ [x]) acc
      ↔ x ∈ acc ∨ x ∈ l := by
  induction l with
  | nil => intro acc x; simp
  | cons a as ih =>
    intro acc x
    simp only [List.foldl_cons]
    by_cases h : a ∈ acc
    · rw [if_pos h, ih]
      constructor
      · rintro (hx | hx)
        · exact Or.inl hx
        · exact Or.inr (List.mem_cons_of_mem a hx)
      · rintro (hx | hx)
        · exact Or.inl hx
        · rcases List.mem_cons.mp hx with rfl | hx
          · exact Or.inl h
          · exact Or.inr hx
    · rw [if_neg h, ih]
      simp only [List.mem_append, List.mem_cons, List.mem_singleton]
      tauto

lemma foldlDedup_nodup (l : List (List Char × List Char)) :
    ∀ acc, acc.Nodup →
      (l.foldl (fun acc x => if x ∈ acc then acc else acc ++ [x]) acc).Nodup := by
  induction l with
  | nil => intro acc h; exact h
  | cons a as ih =>
    intro acc h
    simp only [List.foldl_cons]
    by_cases ha : a ∈ acc
    · rw [if_pos ha]; exact ih acc h
    · rw [if_neg ha]
      refine ih _ ?_
      rw [← List.concat_eq_append]
      exact h.concat ha

lemma pyDedup_mem (l : List (List Char × List Char)) (x : List Char × List Char) :
    x ∈ pyDedup l ↔ x ∈ l := by
  unfold pyDedup
  rw [foldlDedup_mem]
  simp

lemma pyDedup_nodup (l : List (List Char × List Char)) : (pyDedup l).Nodup :=
  foldlDedup_nodup l [] List.nodup_nil

lemma postprocess_perm (l : List (List Char × List Char)) :
    (postprocess l).Perm (pyDedup l) :=
  List.perm_insertionSort epLe (pyDedup l)

lemma postprocess_sorted (l : List (List Char × List Char)) :
    List.Sorted epLe (postprocess l) := by
  haveI : IsTotal (List Char × List Char) epLe :=
    ⟨fun a b => keyLeB_total (keyOf a) (keyOf b)⟩
  haveI : IsTrans (List Char × List Char) epLe :=
    ⟨fun a b c => keyLeB_trans (keyOf a) (keyOf b) (keyOf c)⟩
  exact List.sorted_insertionSort epLe (pyDedup l)

/-- C2, corrected: `get_episodes_list` deduplicates by the `(number, url)`
pair and stable-sorts by the key `(int(number)` if the number is a digit
run, else `10 ** 9`, then the url)`: the output is sorted by that key (so
numeric entries in ascending order with URL tie-break, and `"?"` entries
after every entry whose numeric value is below `10 ** 9`), is duplicate-free,
and has exactly the members of the raw pair list; the concrete refs of the
claim produce exactly the claimed output. -/
theorem c2_episode_dedup_sort :
    (∀ base anchors, get_episodes_list base anchors = postprocess (episode_pairs base anchors))
    ∧ (∀ l, List.Sorted epLe (postprocess l))
    ∧ (∀ l, (postprocess l).Perm (pyDedup l))
    ∧ (∀ l, (postprocess l).Nodup)
    ∧ (∀ l x, x ∈ postprocess l ↔ x ∈ l)
    ∧ postprocess [("3".toList, "u1".toList), ("1".toList, "u2".toList),
          ("?".toList, "u3".toList), ("1".toList, "u2".toList)] =
        [("1".toList, "u2".toList), ("3".toList, "u1".toList), ("?".toList, "u3".toList)] := by
  refine ⟨fun _ _ => rfl, postprocess_sorted, postprocess_perm, ?_, ?_, by decide⟩
  · intro l
    exact (postprocess_perm l).symm.nodup (pyDedup_nodup l)
  · intro l x
    rw [(postprocess_perm l).mem_iff, pyDedup_mem]

/-- C2 counterexample: with a numbered entry whose value is `10 ** 9` the
unknown-sentinel entry is *not* placed after all numbered entries — the
sentinel key collides and the URL tie-break puts the unknown entry first. -/
theorem c2_episode_sort_counterexample :
    postprocess [("1000000000".toList, "b".toList), ("?".toList, "a".toList)] =
      [("?".toList, "a".toList), ("1000000000".toList, "b".toList)]
    ∧ isdigitL "?".toList = false ∧ isdigitL "1000000000".toList = true := by
  refine ⟨by decide, by decide, by decide⟩

/-- C5: `_abs` joins a possibly-relative path against the base per standard
URL-join semantics: an absolute path replaces the base path, and a `..`
segment is resolved away (the extra slash `_abs` appends to the base only
adds an empty interior segment, which the join discards). -/
theorem c5_abs_url_join :
    abs "https://h.example".toList "/watch/1".toList = "https://h.example/watch/1".toList
    ∧ abs "https://h.example/a/".toList "../b".toList = "https://h.example/b".toList := by
  exact ⟨by decide, by decide⟩

lemma pickFirstGood_eq_find (probe : List Char → Option Nat) :
    ∀ pool, pickFirstGood probe pool = (pool.find? (goodB probe)).map rstripSlash := by
  intro pool
  induction pool with
  | nil => rfl
  | cons b rest ih =>
    simp only [pickFirstGood]
    cases hp : probe b with
    | none =>
      have hg : goodB probe b = false := by simp [goodB, hp]
      rw [List.find?_cons_of_neg _ (by simp [hg])]
      exact ih
    | some s =>
      by_cases h : s < 500
      · have hg : goodB probe b = true := by simp [goodB, hp, h]
        rw [List.find?_cons_of_pos _ hg]
        simp [h]
      · have hg : goodB probe b = false := by
          simp only [goodB, hp, decide_eq_false_iff_not]
          omega
        rw [List.find?_cons_of_neg _ (by simp [hg])]
        simpa [h] using ih

lemma pick_live_base_mem (probe : List Char → Option Nat) (pool : List (List Char))
    (h : pool ≠ []) : ∃ b ∈ pool, pick_live_base probe pool = some (rstripSlash b) := by
  cases hf : pool.find? (goodB probe) with
  | some b =>
    refine ⟨b, List.mem_of_find?_eq_some hf, ?_⟩
    unfold pick_live_base
    rw [pickFirstGood_eq_find, hf]
    rfl
  | none =>
    cases pool with
    | nil => exact absurd rfl h
    | cons b rest =>
      refine ⟨b, List.mem_cons_self b rest, ?_⟩
      unfold pick_live_base
      rw [pickFirstGood_eq_find, hf]
      rfl

/-- C6, corrected: `_pick_live_base` returns the first pool entry whose
probe response status is below 500 — with trailing slashes stripped
(`base.rstrip("/")`) — and when every entry fails or answers ≥ 500 it
returns the stripped first entry; hence on every non-empty pool the call
never raises and its result is the `rstrip("/")` of some pool member.  The
result is a pool member itself whenever the entries carry no trailing
slash, as in the configured `HIANIME_DOMAIN_POOL`. -/
theorem c6_pick_live_base_policy :
    (∀ probe pool, pick_live_base probe pool =
        match pool.find? (goodB probe) with
        | some b => some (rstripSlash b)
        | none => pool.head?.map rstripSlash)
    ∧ (∀ probe pool, pool ≠ [] →
        ∃ b ∈ pool, pick_live_base probe pool = some (rstripSlash b))
    ∧ (∀ probe pool, pool ≠ [] → (pick_live_base probe pool).isSome = true)
    ∧ (∀ probe, ∃ b ∈ HIANIME_DOMAIN_POOL,
        pick_live_base probe HIANIME_DOMAIN_POOL = some b) := by
  refine ⟨?_, pick_live_base_mem, ?_, ?_⟩
  · intro probe pool
    unfold pick_live_base
    rw [pickFirstGood_eq_find]
    cases pool.find? (goodB probe) <;> rfl
  · intro probe pool h
    obtain ⟨b, _, hb⟩ := pick_live_base_mem probe pool h
    rw [hb]
    rfl
  · intro probe
    obtain ⟨b, hb, he⟩ := pick_live_base_mem probe HIANIME_DOMAIN_POOL (by decide)
    have hid : ∀ x ∈ HIANIME_DOMAIN_POOL, rstripSlash x = x := by decide
    exact ⟨b, hb, by rw [he, hid b hb]⟩

/-- Witness for C6 at a concrete pool and probe (discharging `pool ≠ []`). -/
theorem c6_pick_live_base_policy_witness :
    ∃ b ∈ ["https://a.example".toList],
      pick_live_base (fun _ => none) ["https://a.example".toList] = some (rstripSlash b) :=
  c6_pick_live_base_policy.2.1 (fun _ => none) ["https://a.example".toList] (by decide)

/-- C6 counterexample: on the pool `["https://x/"]` (an entry with a
trailing slash) the returned value `"https://x"` is not a member of the
pool — the claim "its result is always a member of the pool" fails, because
the code returns `base.rstrip("/")`, not `base`. -/
theorem c6_pick_live_base_counterexample :
    pick_live_base (fun _ => some 200) ["https://x/".toList] = some "https://x".toList
    ∧ "https://x".toList ∉ ["https://x/".toList] := by
  exact ⟨by decide, by decide⟩

/-- C8: on any URL whose parse carries both a scheme and a netloc,
`_base_of` returns `scheme://netloc` independently of the probe and pool
(the probing path is not consulted); on any other input it returns exactly
`_pick_live_base()`; in particular `"https://h.example/x"` resolves to
`"https://h.example"`. -/
theorem c8_base_of_authority :
    (∀ url, (urlsplit url []).scheme ≠ [] → (urlsplit url []).netloc ≠ [] →
      ∀ probe pool, base_of probe pool url =
        some ((urlsplit url []).scheme ++ ':' :: '/' :: '/' :: (urlsplit url []).netloc))
    ∧ (∀ url, ¬ ((urlsplit url []).scheme ≠ [] ∧ (urlsplit url []).netloc ≠ []) →
      ∀ probe pool, base_of probe pool url = pick_live_base probe pool)
    ∧ (∀ probe pool, base_of probe pool "https://h.example/x".toList =
        some "https://h.example".toList) := by
  refine ⟨?_, ?_, ?_⟩
  · intro url h1 h2 probe pool
    unfold base_of
    split
    · rfl
    · next hneg => exact absurd ⟨h1, h2⟩ hneg
  · intro url h probe pool
    unfold base_of
    split
    · next hpos => exact absurd hpos h
    · rfl
  · intro probe pool
    rfl

/-- Witness for C8 at concrete inputs: an absolute URL resolves to its
authority without probing, a relative one delegates to `_pick_live_base`. -/
theorem c8_base_of_authority_witness :
    base_of (fun _ => none) [] "https://h.example/x".toList =
      some ((urlsplit "https://h.example/x".toList []).scheme ++ ':' :: '/' :: '/' ::
        (urlsplit "https://h.example/x".toList []).netloc)
    ∧ base_of (fun _ => none) [] "watch/1".toList =
      pick_live_base (fun _ => none) [] :=
  ⟨c8_base_of_authority.1 "https://h.example/x".toList (by decide) (by decide)
      (fun _ => none) [],
   c8_base_of_authority.2.1 "watch/1".toList (by decide) (fun _ => none) []⟩

lemma skipLitCI_suffix : ∀ p cs r, skipLitCI p cs = some r → r <:+ cs := by
  intro p
  induction p with
  | nil =>
    intro cs r h
    simp only [skipLitCI, Option.some.injEq] at h
    subst h
    exact List.suffix_rfl
  | cons p ps ih =>
    intro cs r h
    cases cs with
    | nil => simp [skipLitCI] at h
    | cons c cs' =>
      simp only [skipLitCI] at h
      by_cases hc : lowerN c = lowerN p
      · rw [if_pos hc] at h
        exact (ih cs' r h).trans (List.suffix_cons c cs')
      · rw [if_neg hc] at h
        simp at h

lemma skipLitCI_append : ∀ p cs r, skipLitCI p cs = some r →
    ∃ pre, cs = pre ++ r ∧ pre.map lowerN = p.map lowerN := by
  intro p
  induction p with
  | nil =>
    intro cs r h
    simp only [skipLitCI, Option.some.injEq] at h
    subst h
    exact ⟨[], rfl, rfl⟩
  | cons p ps ih =>
    intro cs r h
    cases cs with
    | nil => simp [skipLitCI] at h
    | cons c cs' =>
      simp only [skipLitCI] at h
      by_cases hc : lowerN c = lowerN p
      · rw [if_pos hc] at h
        obtain ⟨pre, heq, hm⟩ := ih cs' r h
        exact ⟨c :: pre, by simp [heq], by simp [hm, hc]⟩
      · rw [if_neg hc] at h
        simp at h

lemma skipLitCI_infixLow (p cs r : List Char) (h : skipLitCI p cs = some r) :
    (p.map lowerN) <:+: (cs.map lowerN) := by
  obtain ⟨pre, heq, hm⟩ := skipLitCI_append p cs r h
  refine ⟨[], r.map lowerN, ?_⟩
  rw [heq, List.map_append, hm]
  simp

lemma expectChar_suffix (c : Char) : ∀ cs r, expectChar c cs = some r → r <:+ cs := by
  intro cs r h
  cases cs with
  | nil => simp [expectChar] at h
  | cons d cs' =>
    simp only [expectChar] at h
    by_cases hd : d = c
    · rw [if_pos hd] at h
      simp only [Option.some.injEq] at h
      subst h
      exact List.suffix_cons d cs'
    · rw [if_neg hd] at h
      simp at h

lemma skipWs_suffix (cs : List Char) : skipWs cs <:+ cs :=
  List.dropWhile_suffix isSpacePy

lemma skipToQuote_suffix (cs r : List Char) (h : skipToQuote cs = some r) : r <:+ cs := by
  simp only [skipToQuote] at h
  cases hd : cs.dropWhile (fun c => c != '"') with
  | nil => rw [hd] at h; simp at h
  | cons x t =>
    rw [hd] at h
    simp only [Option.some.injEq] at h
    exact h ▸ ((List.suffix_cons x t).trans (hd ▸ List.dropWhile_suffix (fun c => c != '"')))

lemma skipKeyAlt_suffix : ∀ keys r r', skipKeyAlt keys r = some r' → r' <:+ r := by
  intro keys
  induction keys with
  | nil => intro r r' h; simp [skipKeyAlt] at h
  | cons k ks ih =>
    intro r r' h
    simp only [skipKeyAlt] at h
    cases hs : skipLitCI k r with
    | some r1 =>
      rw [hs] at h
      simp only [Option.some.injEq] at h
      exact h ▸ skipLitCI_suffix k r r1 hs
    | none =>
      rw [hs] at h
      exact ih r r' h

lemma matchQuotedValue_ok (ok : List Char → Bool) (r u : List Char)
    (h : matchQuotedValue ok r = some u) : ok u = true := by
  simp only [matchQuotedValue, Option.bind_eq_some] at h
  obtain ⟨r1, -, h⟩ := h
  cases hd : r1.drop (r1.takeWhile (fun c => c != '"')).length with
  | nil => rw [hd] at h; simp at h
  | cons x t =>
    rw [hd] at h
    by_cases hok : ok (r1.takeWhile (fun c => c != '"'))
    · rw [if_pos hok] at h
      simp only [Option.some.injEq] at h
      exact h ▸ hok
    · rw [if_neg hok] at h
      simp at h

lemma scanFirst_leftmost (m : List Char → Option (List Char)) :
    ∀ cs u, scanFirst m cs = some u →
      ∃ i, m (cs.drop i) = some u ∧ ∀ j, j < i → m (cs.drop j) = none := by
  intro cs
  induction cs with
  | nil =>
    intro u h
    exact ⟨0, h, fun j hj => absurd hj (Nat.not_lt_zero j)⟩
  | cons c rest ih =>
    intro u h
    cases h0 : m (c :: rest) with
    | some v =>
      simp only [scanFirst, h0, Option.some.injEq] at h
      subst h
      exact ⟨0, h0, fun j hj => absurd hj (Nat.not_lt_zero j)⟩
    | none =>
      simp only [scanFirst, h0] at h
      obtain ⟨i, hi, hj⟩ := ih u h
      refine ⟨i + 1, by simpa using hi, ?_⟩
      intro j hj'
      cases j with
      | zero => exact h0
      | succ k => simpa using hj k (by omega)

lemma scanFirst_some_suffix (m : List Char → Option (List Char)) :
    ∀ cs u, scanFirst m cs = some u → ∃ t, t <:+ cs ∧ m t = some u := by
  intro cs
  induction cs with
  | nil => intro u h; exact ⟨[], List.suffix_rfl, h⟩
  | cons c rest ih =>
    intro u h
    cases h0 : m (c :: rest) with
    | some v =>
      simp only [scanFirst, h0, Option.some.injEq] at h
      subst h
      exact ⟨c :: rest, List.suffix_rfl, h0⟩
    | none =>
      simp only [scanFirst, h0] at h
      obtain ⟨t, ht, hm⟩ := ih u h
      exact ⟨t, ht.trans (List.suffix_cons c rest), hm⟩

lemma scanFirst_eq_none (m : List Char → Option (List Char)) :
    ∀ cs, (∀ t, t <:+ cs → m t = none) → scanFirst m cs = none := by
  intro cs
  induction cs with
  | nil => intro h; exact h [] List.suffix_rfl
  | cons c rest ih =>
    intro h
    simp only [scanFirst, h (c :: rest) List.suffix_rfl]
    exact ih fun t ht => h t (ht.trans (List.suffix_cons c rest))

lemma matchStreamAt_hd2 (cs u : List Char) (h : matchStreamAt cs = some u) :
    ("hd-2".toList.map lowerN) <:+: (cs.map lowerN) := by
  simp only [matchStreamAt, Option.bind_eq_some] at h
  obtain ⟨r1, h1, r2, h2, r3, h3, -⟩ := h
  have schain : skipWs r2 <:+ cs :=
    ((skipWs_suffix r2).trans (expectChar_suffix ':' (skipWs r1) r2 h2)).trans
      ((skipWs_suffix r1).trans (skipLitCI_suffix _ cs r1 h1))
  have hinner : ("hd-2".toList.map lowerN) <:+: ("\"hd-2\"".toList.map lowerN) := by decide
  exact ((hinner.trans (skipLitCI_infixLow _ _ _ h3)).trans (schain.map lowerN).isInfix)

lemma matchStreamAt_ok (cs u : List Char) (h : matchStreamAt cs = some u) :
    streamOk u = true := by
  simp only [matchStreamAt, Option.bind_eq_some] at h
  obtain ⟨r1, _, r2, _, r3, _, r4, _, r5, _, r6, _, r7, _, hq⟩ := h
  exact matchQuotedValue_ok streamOk _ u hq

lemma matchSub1At_srclang (cs u : List Char) (h : matchSub1At cs = some u) :
    ("srclang".toList.map lowerN) <:+: (cs.map lowerN) := by
  simp only [matchSub1At, Option.bind_eq_some] at h
  obtain ⟨r1, h1, -⟩ := h
  have hinner : ("srclang".toList.map lowerN) <:+: ("\"srclang\"".toList.map lowerN) := by
    decide
  exact hinner.trans (skipLitCI_infixLow _ _ _ h1)

lemma matchSub1At_ok (cs u : List Char) (h : matchSub1At cs = some u) :
    subOk u = true := by
  simp only [matchSub1At, Option.bind_eq_some] at h
  obtain ⟨r1, _, r2, _, r3, _, r4, _, r5, _, r6, _, r7, _, hq⟩ := h
  exact matchQuotedValue_ok subOk _ u hq

lemma matchSub2At_english (cs u : List Char) (h : matchSub2At cs = some u) :
    ("english".toList.map lowerN) <:+: (cs.map lowerN) := by
  simp only [matchSub2At, Option.bind_eq_some] at h
  obtain ⟨r1, h1, r2, h2, r3, h3, -⟩ := h
  have schain : skipWs r2 <:+ cs :=
    ((skipWs_suffix r2).trans (expectChar_suffix ':' (skipWs r1) r2 h2)).trans
      ((skipWs_suffix r1).trans (skipLitCI_suffix _ cs r1 h1))
  have hinner : ("english".toList.map lowerN) <:+: ("\"english".toList.map lowerN) := by decide
  exact ((hinner.trans (skipLitCI_infixLow _ _ _ h3)).trans (schain.map lowerN).isInfix)

lemma matchSub2At_ok (cs u : List Char) (h : matchSub2At cs = some u) :
    subOk u = true := by
  simp only [matchSub2At, Option.bind_eq_some] at h
  obtain ⟨r1, _, r2, _, r3, _, r4, _, r5, _, r6, _, r7, _, r8, _, hq⟩ := h
  exact matchQuotedValue_ok subOk _ u hq

lemma streamSearch_none_of_no_hd2 (cs : List Char)
    (hno : ¬ ("hd-2".toList.map lowerN) <:+: (cs.map lowerN)) : streamSearch cs = none := by
  apply scanFirst_eq_none
  intro t ht
  cases hm : matchStreamAt t with
  | none => rfl
  | some u =>
    exact absurd ((matchStreamAt_hd2 t u hm).trans (ht.map lowerN).isInfix) hno

lemma subSearch_none_of_no_english (cs : List Char)
    (hno1 : ¬ ("srclang".toList.map lowerN) <:+: (cs.map lowerN))
    (hno2 : ¬ ("english".toList.map lowerN) <:+: (cs.map lowerN)) : subSearch cs = none := by
  have h1 : scanFirst matchSub1At cs = none := by
    apply scanFirst_eq_none
    intro t ht
    cases hm : matchSub1At t with
    | none => rfl
    | some u =>
      exact absurd ((matchSub1At_srclang t u hm).trans (ht.map lowerN).isInfix) hno1
  have h2 : scanFirst matchSub2At cs = none := by
    apply scanFirst_eq_none
    intro t ht
    cases hm : matchSub2At t with
    | none => rfl
    | some u =>
      exact absurd ((matchSub2At_english t u hm).trans (ht.map lowerN).isInfix) hno2
  simp [subSearch, h1, h2]

/-- C3: the stream URL is extracted by the first match, left to right, of
the HD-2 pattern: on the claimed text (an HD-1 entry followed by the HD-2
entry) exactly the HD-2 URL is returned; with two HD-2 entries the first
wins; a page whose only entry has a different label yields nothing — in
general a page whose text nowhere contains `hd-2` (case-insensitively)
yields nothing; every returned URL ends in `.m3u8` (case-insensitively,
after at least one preceding character); and any returned URL is the
capture of the leftmost position at which the pattern matches. -/
theorem c3_stream_pattern_extraction :
    (extract_episode_stream_and_subtitle pageBothLabels).1 = some "https://cdn/x.m3u8".toList
    ∧ streamSearch pageTwoHd2 = some "https://c/x.m3u8".toList
    ∧ streamSearch pageOtherLabel = none
    ∧ (∀ cs, ¬ ("hd-2".toList.map lowerN) <:+: (cs.map lowerN) → streamSearch cs = none)
    ∧ (∀ cs u, streamSearch cs = some u → streamOk u = true)
    ∧ (∀ cs u, streamSearch cs = some u →
        ∃ i, matchStreamAt (cs.drop i) = some u ∧ ∀ j, j < i → matchStreamAt (cs.drop j) = none) := by
  refine ⟨by decide, by decide, by decide, streamSearch_none_of_no_hd2, ?_, ?_⟩
  · intro cs u h
    obtain ⟨t, -, hm⟩ := scanFirst_some_suffix matchStreamAt cs u h
    exact matchStreamAt_ok t u hm
  · exact scanFirst_leftmost matchStreamAt

/-- Witness for C3 at concrete inputs, discharging the hypotheses of the
universally quantified conjuncts. -/
theorem c3_stream_pattern_extraction_witness :
    streamSearch "no stream here".toList = none
    ∧ streamOk "https://cdn/x.m3u8".toList = true
    ∧ (∃ i, matchStreamAt (pageBothLabels.drop i) = some "https://cdn/x.m3u8".toList
        ∧ ∀ j, j < i → matchStreamAt (pageBothLabels.drop j) = none) :=
  ⟨c3_stream_pattern_extraction.2.2.2.1 "no stream here".toList (by decide),
   c3_stream_pattern_extraction.2.2.2.2.1 pageBothLabels "https://cdn/x.m3u8".toList
     (by decide),
   c3_stream_pattern_extraction.2.2.2.2.2 pageBothLabels "https://cdn/x.m3u8".toList
     (by decide)⟩

/-- C4: the subtitle URL is the first match of the code-based (`srclang`
en) pattern when one exists, else the first match of the name-based
(`English`-prefixed) pattern: the claimed srclang entry is returned; a page
with only non-English entries yields nothing; when both kinds of entry are
present the code-based one wins even if the name-based entry occurs earlier
in the text; and every returned URL ends in `.vtt` or `.srt`
(case-insensitively, after at least one preceding character). -/
theorem c4_subtitle_pattern_extraction :
    subSearch pageSubCode = some "https://cdn/en.vtt".toList
    ∧ subSearch pageSubNone = none
    ∧ subSearch pageSubBoth = some "https://b/c.vtt".toList
    ∧ (∀ cs u, scanFirst matchSub1At cs = some u → subSearch cs = some u)
    ∧ (∀ cs, scanFirst matchSub1At cs = none → subSearch cs = scanFirst matchSub2At cs)
    ∧ (∀ cs u, subSearch cs = some u → subOk u = true) := by
  refine ⟨by decide, by decide, by decide, ?_, ?_, ?_⟩
  · intro cs u h
    simp [subSearch, h]
  · intro cs h
    simp [subSearch, h]
  · intro cs u h
    simp only [subSearch] at h
    cases h1 : scanFirst matchSub1At cs with
    | some v =>
      rw [h1] at h
      simp only [Option.some.injEq] at h
      subst h
      obtain ⟨t, -, hm⟩ := scanFirst_some_suffix matchSub1At cs v h1
      exact matchSub1At_ok t v hm
    | none =>
      rw [h1] at h
      obtain ⟨t, -, hm⟩ := scanFirst_some_suffix matchSub2At cs u h
      exact matchSub2At_ok t u hm

/-- Witness for C4 at concrete inputs, discharging the hypotheses of the
universally quantified conjuncts. -/
theorem c4_subtitle_pattern_extraction_witness :
    subSearch pageSubCode = some "https://cdn/en.vtt".toList
    ∧ subSearch "\x7b\"lang\":\"English\",\"url\":\"https://a/n.srt\"\x7d".toList =
        scanFirst matchSub2At "\x7b\"lang\":\"English\",\"url\":\"https://a/n.srt\"\x7d".toList
    ∧ subOk "https://cdn/en.vtt".toList = true :=
  ⟨c4_subtitle_pattern_extraction.2.2.2.1 pageSubCode "https://cdn/en.vtt".toList (by decide),
   c4_subtitle_pattern_extraction.2.2.2.2.1 _ (by decide),
   c4_subtitle_pattern_extraction.2.2.2.2.2 pageSubCode "https://cdn/en.vtt".toList
     (by decide)⟩

/-- C7: `extract_episode_stream_and_subtitle` is a total function of the
fetched page text yielding a pair of optional values — a missing stream
pattern match yields `none` in the first component and a missing subtitle
pattern match yields `none` in the second, with no exception involved; in
particular a page with an English-subtitle match but no HD-2 match yields
`(none, that subtitle URL)`. -/
theorem c7_absent_results_are_not_errors :
    (∀ cs, extract_episode_stream_and_subtitle cs = (streamSearch cs, subSearch cs))
    ∧ (∀ cs, ¬ ("hd-2".toList.map lowerN) <:+: (cs.map lowerN) →
        (extract_episode_stream_and_subtitle cs).1 = none)
    ∧ (∀ cs, ¬ ("srclang".toList.map lowerN) <:+: (cs.map lowerN) →
        ¬ ("english".toList.map lowerN) <:+: (cs.map lowerN) →
        (extract_episode_stream_and_subtitle cs).2 = none)
    ∧ extract_episode_stream_and_subtitle pageSubCode = (none, some "https://cdn/en.vtt".toList) := by
  refine ⟨fun cs => rfl, ?_, ?_, by decide⟩
  · intro cs h
    exact streamSearch_none_of_no_hd2 cs h
  · intro cs h1 h2
    exact subSearch_none_of_no_english cs h1 h2

/-- Witness for C7 at a concrete input, discharging the no-match hypotheses. -/
theorem c7_absent_results_are_not_errors_witness :
    (extract_episode_stream_and_subtitle "plain page".toList).1 = none
    ∧ (extract_episode_stream_and_subtitle "plain page".toList).2 = none :=
  ⟨c7_absent_results_are_not_errors.2.1 "plain page".toList (by decide),
   c7_absent_results_are_not_errors.2.2.1 "plain page".toList (by decide) (by decide)⟩

lemma digitsRun_some (l d : List Char)
    (h : (if (l.takeWhile Char.isDigit).isEmpty = true then none
          else some (l.takeWhile Char.isDigit)) = some d) :
    d ≠ [] ∧ d.all Char.isDigit = true := by
  by_cases he : (l.takeWhile Char.isDigit).isEmpty = true
  · rw [if_pos he] at h
    simp at h
  · rw [if_neg he] at h
    simp only [Option.some.injEq] at h
    subst h
    refine ⟨by simpa [List.isEmpty_iff] using he, ?_⟩
    rw [List.all_eq_true]
    exact fun x hx => List.mem_takeWhile_imp hx

lemma matchEpTextAt_digits (cs d : List Char) (h : matchEpTextAt cs = some d) :
    d ≠ [] ∧ d.all Char.isDigit = true := by
  simp only [matchEpTextAt, Option.bind_eq_some] at h
  obtain ⟨r1, -, h⟩ := h
  exact digitsRun_some (skipWs r1) d h

lemma matchEpHrefAt_digits (cs d : List Char) (h : matchEpHrefAt cs = some d) :
    d ≠ [] ∧ d.all Char.isDigit = true := by
  simp only [matchEpHrefAt, Option.bind_eq_some] at h
  obtain ⟨r1, -, h⟩ := h
  cases r1 with
  | nil => simp at h
  | cons c r2 =>
    have h3 : (if c = '-' ∨ c = '_' ∨ c = '/' ∨ c = ' ' then
        (if (r2.takeWhile Char.isDigit).isEmpty = true then none
         else some (r2.takeWhile Char.isDigit))
      else
        (if ((c :: r2).takeWhile Char.isDigit).isEmpty = true then none
         else some ((c :: r2).takeWhile Char.isDigit))) = some d := h
    by_cases hsep : c = '-' ∨ c = '_' ∨ c = '/' ∨ c = ' '
    · rw [if_pos hsep] at h3
      exact digitsRun_some r2 d h3
    · rw [if_neg hsep] at h3
      exact digitsRun_some (c :: r2) d h3

lemma epNumOf_shape (t hr : List Char) :
    (epNumOf t hr ≠ [] ∧ (epNumOf t hr).all Char.isDigit = true) ∨ epNumOf t hr = ['?'] := by
  unfold epNumOf
  cases h1 : scanFirst matchEpTextAt t with
  | some d =>
    obtain ⟨s, -, hm⟩ := scanFirst_some_suffix matchEpTextAt t d h1
    exact Or.inl (matchEpTextAt_digits s d hm)
  | none =>
    cases h2 : scanFirst matchEpHrefAt hr with
    | some d =>
      obtain ⟨s, -, hm⟩ := scanFirst_some_suffix matchEpHrefAt hr d h2
      exact Or.inl (matchEpHrefAt_digits s d hm)
    | none =>
      exact Or.inr rfl

/-- C9, corrected: every episode number emitted by `get_episodes_list` is
either a non-empty ASCII digit run (derived from `Episode <digits>` in the
anchor text, else a digit run adjacent to `episode` in the href) or the
`"?"` sentinel — no other value ever appears.  (The digit run need not
denote a *positive* integer: `"0"` is emitted for `Episode 0`.) -/
theorem c9_episode_number_shape :
    ∀ base anchors p, p ∈ get_episodes_list base anchors →
      (p.1 ≠ [] ∧ p.1.all Char.isDigit = true) ∨ p.1 = ['?'] := by
  intro base anchors p hp
  unfold get_episodes_list at hp
  have h1 : p ∈ pyDedup (episode_pairs base anchors) :=
    ((postprocess_perm (episode_pairs base anchors)).mem_iff).mp hp
  have h2 : p ∈ episode_pairs base anchors := (pyDedup_mem _ p).mp h1
  simp only [episode_pairs, List.mem_filterMap] at h2
  obtain ⟨a, ha, hf⟩ := h2
  by_cases hh : pyStrip a.2 = []
  · rw [if_pos hh] at hf
    exact absurd hf (by simp)
  · rw [if_neg hh] at hf
    simp only [Option.some.injEq] at hf
    rw [← hf]
    exact epNumOf_shape a.1 (pyStrip a.2)

/-- Witness for C9 at a concrete anchor list (discharging the membership
hypothesis). -/
theorem c9_episode_number_shape_witness :
    ("3".toList ≠ [] ∧ "3".toList.all Char.isDigit = true) ∨ "3".toList = ['?'] :=
  c9_episode_number_shape "https://h.example".toList
    [("Episode 3".toList, "e".toList)]
    ("3".toList, "https://h.example/e".toList) (by decide)

/-- C9 counterexample: the anchor text `Episode 0` makes `get_episodes_list`
emit the number `"0"`, which is neither a positive integer nor the unknown
sentinel — refuting "every episode number is a positive integer or the
unknown sentinel". -/
theorem c9_episode_number_counterexample :
    get_episodes_list "https://h.example".toList [("Episode 0".toList, "e".toList)] =
      [("0".toList, "https://h.example/e".toList)]
    ∧ natOfDigits "0".toList = 0 ∧ "0".toList ≠ ['?'] := by
  exact ⟨by decide, by decide, by decide⟩

lemma titleOf_ne_nil (a : Anchor) : titleOf a ≠ [] := by
  unfold titleOf
  cases ha : a.titleAttr with
  | some t =>
    show (if t = [] then (if a.text = [] then "Unknown".toList else a.text) else t) ≠ []
    by_cases ht : t = []
    · rw [if_pos ht]
      by_cases hx : a.text = []
      · rw [if_pos hx]; simp
      · rw [if_neg hx]; exact hx
    · rw [if_neg ht]; exact ht
  | none =>
    show (if a.text = [] then "Unknown".toList else a.text) ≠ []
    by_cases hx : a.text = []
    · rw [if_pos hx]; simp
    · rw [if_neg hx]; exact hx

/-- C10: every element of `search_anime`'s result comes from an anchor with
a non-empty (stripped) href and is the triple
`(title, anime_url, anime_url)` whose second and third components are the
same absolutized URL and whose title — the `title` attribute, else the
visible text, else `"Unknown"` — is never empty. -/
theorem c10_search_result_shape :
    ∀ base anchors r, r ∈ search_anime base anchors →
      ∃ a ∈ anchors, pyStrip a.href ≠ []
        ∧ r = (titleOf a, abs base (pyStrip a.href), abs base (pyStrip a.href))
        ∧ r.1 ≠ [] ∧ r.2.1 = r.2.2 := by
  intro base anchors r hr
  simp only [search_anime, List.mem_filterMap] at hr
  obtain ⟨a, ha, hf⟩ := hr
  by_cases hh : pyStrip a.href = []
  · rw [if_pos hh] at hf
    exact absurd hf (by simp)
  · rw [if_neg hh] at hf
    simp only [Option.some.injEq] at hf
    refine ⟨a, ha, hh, hf.symm, ?_, ?_⟩
    · rw [← hf]
      exact titleOf_ne_nil a
    · rw [← hf]

/-- Witness for C10 at a concrete anchor list (discharging the membership
hypothesis). -/
theorem c10_search_result_shape_witness :
    ∃ a ∈ [Anchor.mk none "T".toList "/a/1".toList], pyStrip a.href ≠ []
      ∧ ("T".toList, "https://h.example/a/1".toList, "https://h.example/a/1".toList)
          = (titleOf a, abs "https://h.example".toList (pyStrip a.href),
             abs "https://h.example".toList (pyStrip a.href))
      ∧ ("T".toList, "https://h.example/a/1".toList, "https://h.example/a/1".toList).1 ≠ []
      ∧ ("T".toList, "https://h.example/a/1".toList, "https://h.example/a/1".toList).2.1 =
          ("T".toList, "https://h.example/a/1".toList, "https://h.example/a/1".toList).2.2 :=
  c10_search_result_shape "https://h.example".toList [Anchor.mk none "T".toList "/a/1".toList]
    ("T".toList, "https://h.example/a/1".toList, "https://h.example/a/1".toList) (by decide)

end Hianime

